import Mathlib

/-!
Shallow embedding of the consensus engine in `src/blockchain/ConsensusEngine.ts`
(Synapse Protocol).  JavaScript numbers are modelled by `ℚ` (the values involved
are small and the properties at issue are exact); `bigint` stakes are modelled by
`ℕ` (the data model requires `stake >= 0`); a JavaScript expression whose value
is the floating-point `NaN` is modelled by `none : Option ℚ`.  The registry
`Map` is modelled as its insertion-ordered value list, which is what
`Array.from(this.nodes.values())` observes.
-/

namespace Synapse

/-- Participant record, from `interface ConsensusNode` (ConsensusEngine.ts lines 6-13). -/
structure ConsensusNode where
  id : String
  weight : ℚ
  stake : ℕ
  reputation : ℚ
  lastProposal : ℤ
  neuralSignature : String
deriving DecidableEq

/-- Transaction type tag, from `interface Transaction` (lines 25-30). -/
inductive TxType where
  | MODEL_UPDATE
  | KNOWLEDGE_SYNC
  | REPUTATION_UPDATE
  | STAKE_CHANGE
deriving DecidableEq

/-- Transaction record, from `interface Transaction` (lines 25-30); the untyped
`data` payload is modelled as an uninterpreted string. -/
structure Transaction where
  id : String
  type : TxType
  data : String
  signature : String
deriving DecidableEq

/-- Block record, from `interface ConsensusBlock` (lines 15-23); the signatures
`Map<string, string>` is modelled as an association list. -/
structure ConsensusBlock where
  height : ℕ
  timestamp : ℕ
  previousHash : String
  transactions : List Transaction
  neuralStateRoot : String
  proposer : String
  signatures : List (String × String)
deriving DecidableEq

/-- `getTotalStake` (lines 127-130): fold of `+` over all stakes starting at `0n`. -/
def getTotalStake (nodes : List ConsensusNode) : ℕ :=
  nodes.foldl (fun total node => total + node.stake) 0

/-- JavaScript float division `x / y` for the uses in this module, where the
numerator is `0` whenever the denominator is `0` (stakes are non-negative):
`0 / 0` is the float `NaN`, modelled as `none`. -/
def jsDiv (x y : ℚ) : Option ℚ :=
  if y = 0 then none else some (x / y)

/-- The constant `stakeWeight = 0.6` (line 117). -/
def stakeWeight : ℚ := 6 / 10

/-- The constant `reputationWeight = 0.4` (line 118). -/
def reputationWeight : ℚ := 4 / 10

/-- `calculatePriority` (lines 116-122):
`normalizedStake = Number(node.stake) / Number(totalStake)` followed by
`normalizedStake * stakeWeight + node.reputation * reputationWeight`.
When `totalStake = 0` the division is `0 / 0 = NaN` and `NaN` propagates
through the arithmetic, hence `none`. -/
def calculatePriority (total : ℕ) (node : ConsensusNode) : Option ℚ :=
  match jsDiv (node.stake : ℚ) (total : ℚ) with
  | none => none
  | some normalizedStake =>
      some (normalizedStake * stakeWeight + node.reputation * reputationWeight)

/-- The value of `calculatePriority` in the non-degenerate case `total ≠ 0`. -/
def priorityVal (total : ℕ) (node : ConsensusNode) : ℚ :=
  ((node.stake : ℚ) / (total : ℚ)) * stakeWeight + node.reputation * reputationWeight

/-- Result of the sort comparator `(a, b) => calculatePriority(b) - calculatePriority(a)`
(line 108); `none` models a `NaN` comparator result. -/
def compareNodes (total : ℕ) (a b : ConsensusNode) : Option ℚ :=
  match calculatePriority total b, calculatePriority total a with
  | some pb, some pa => some (pb - pa)
  | _, _ => none

/-- ECMAScript `SortCompare`: a `NaN` comparator value is treated as `+0`, and
element `a` may be placed no later than `b` exactly when the comparator value
is `≤ 0`.  This is the order realised by the stable `Array.prototype.sort`. -/
def nodeLe (total : ℕ) (a b : ConsensusNode) : Prop :=
  (compareNodes total a b).getD 0 ≤ 0

instance instDecNodeLe (total : ℕ) : DecidableRel (nodeLe total) := fun a b =>
  inferInstanceAs (Decidable ((compareNodes total a b).getD 0 ≤ 0))

/-- The sorted participant list of `isProposer` (lines 107-108):
`Array.from(this.nodes.values()).sort((a, b) => priority(b) - priority(a))`.
`Array.prototype.sort` is stable, which insertion sort realises exactly. -/
def sortedNodes (nodes : List ConsensusNode) : List ConsensusNode :=
  List.insertionSort (nodeLe (getTotalStake nodes)) nodes

/-- The slot number `Math.floor(now / 1000)` (line 106), with `now` in milliseconds. -/
def slotOf (now : ℕ) : ℕ := now / 1000

/-- The indexing step of `isProposer` (lines 106-110): `sortedNodes[slot % N]`.
When the registry is empty, `slot % 0` evaluates to the float `NaN` and
`sortedNodes[NaN]` is `undefined`, modelled as `none`. -/
def selectProposer (nodes : List ConsensusNode) (slot : ℕ) : Option ConsensusNode :=
  if nodes.length = 0 then none
  else (sortedNodes nodes).get? (slot % nodes.length)

/-- `isProposer` (lines 104-111): `sortedNodes[slot]?.id === this.mesh.getNodeId()`;
`undefined?.id === x` evaluates to `false`. -/
def isProposer (nodes : List ConsensusNode) (now : ℕ) (selfId : String) : Bool :=
  match selectProposer nodes (slotOf now) with
  | some node => node.id == selfId
  | none => false

/-- Modelled from the spec (§4.2): priority with the stake contribution treated
as `0` for every participant when `totalStake = 0`. -/
def specPriority (total : ℕ) (node : ConsensusNode) : ℚ :=
  if total = 0 then node.reputation * reputationWeight else priorityVal total node

/-- Modelled from the spec (§4.2): sort descending by priority, breaking ties by
ascending lexicographic `id`. -/
def specLe (total : ℕ) (a b : ConsensusNode) : Prop :=
  specPriority total b < specPriority total a ∨
    (specPriority total a = specPriority total b ∧ (a.id < b.id ∨ a.id = b.id))

instance instDecSpecLe (total : ℕ) : DecidableRel (specLe total) := fun a b =>
  inferInstanceAs (Decidable (specPriority total b < specPriority total a ∨
    (specPriority total a = specPriority total b ∧ (a.id < b.id ∨ a.id = b.id))))

/-- Modelled from the spec (§4.2): the proposer for slot `s` is the participant
at index `s mod N` in the id-tiebroken descending-priority order. -/
def specSelectProposer (nodes : List ConsensusNode) (slot : ℕ) : Option ConsensusNode :=
  if nodes.length = 0 then none
  else (List.insertionSort (specLe (getTotalStake nodes)) nodes).get? (slot % nodes.length)

/-- `calculateNewWeight` (lines 210-218):
`Math.max(0, Math.min(1, baseWeight + (performance - 0.5) * 0.1))`. -/
def calculateNewWeight (node : ConsensusNode) (performance : ℚ) : ℚ :=
  max 0 (min 1 (node.weight + (performance - 1 / 2) * (1 / 10)))

/-- `updateReputation` (lines 246-252):
`Math.max(0, Math.min(1, currentRep + (alignment - 0.5) * 0.1))`. -/
def updateReputation (node : ConsensusNode) (alignment : ℚ) : ℚ :=
  max 0 (min 1 (node.reputation + (alignment - 1 / 2) * (1 / 10)))

/-- `updateNodeWeights` (lines 188-193) as a state transformer on the registry
list, with the external `evaluateNodePerformance` call abstracted as a fallible
oracle.  A thrown evaluation error aborts the `for` loop: the failing node and
all later nodes keep their old records; the returned flag records whether the
loop was aborted (the exception is caught by the epoch-level handler). -/
def updateNodeWeights (evalPerf : ConsensusNode → Except String ℚ) :
    List ConsensusNode → List ConsensusNode × Bool
  | [] => ([], false)
  | node :: rest =>
    match evalPerf node with
    | .error _ => (node :: rest, true)
    | .ok performance =>
        let res := updateNodeWeights evalPerf rest
        ({ node with weight := calculateNewWeight node performance } :: res.1, res.2)

/-- `recalculateReputations` (lines 223-230) as a state transformer, with the
external `calculateNeuralAlignment` call abstracted as a fallible oracle; same
abort-on-throw shape as `updateNodeWeights`. -/
def recalculateReputations (evalAlign : ConsensusNode → Except String ℚ) :
    List ConsensusNode → List ConsensusNode × Bool
  | [] => ([], false)
  | node :: rest =>
    match evalAlign node with
    | .error _ => (node :: rest, true)
    | .ok alignment =>
        let res := recalculateReputations evalAlign rest
        ({ node with reputation := updateReputation node alignment } :: res.1, res.2)

/-- The constant `maxInactivity = 1000 * 60 * 60` of `pruneInactiveNodes` (line 259). -/
def maxInactivity : ℤ := 1000 * 60 * 60

/-- `pruneInactiveNodes` (lines 257-267): delete every node with
`now - node.lastProposal > maxInactivity` from the registry map (deleting the
current entry during `Map` iteration is well defined and visits the rest). -/
def pruneInactiveNodes (now : ℤ) (nodes : List ConsensusNode) : List ConsensusNode :=
  nodes.filter (fun node => decide (now - node.lastProposal ≤ maxInactivity))

/-- The numerator of `calculateConsensusHealth` (lines 295-297): total stake of
nodes with `reputation > 0.5`. -/
def activeStake (nodes : List ConsensusNode) : ℕ :=
  ((nodes.filter (fun node => decide (node.reputation > 1 / 2))).foldl
    (fun s node => s + node.stake) 0)

/-- `calculateConsensusHealth` (lines 294-300):
`Number(activeStake) / Number(getTotalStake())`; with `totalStake = 0` this is
the float division `0 / 0 = NaN`, modelled as `none`. -/
def calculateConsensusHealth (nodes : List ConsensusNode) : Option ℚ :=
  jsDiv (activeStake nodes : ℚ) (getTotalStake nodes : ℚ)

/-- Mutable engine state relevant to block assembly (`blockHeight`,
`currentBlock`, lines 40-41). -/
structure EngineState where
  blockHeight : ℕ
  currentBlock : Option ConsensusBlock
deriving DecidableEq

/-- `proposeBlock` (lines 135-150): the constructed block.  `previousHash` is
`this.currentBlock?.previousHash` with empty-string default (line 142), i.e. the `previousHash`
field of the last block, defaulting to the empty string. -/
def proposeBlock (st : EngineState) (nowTs : ℕ) (transactions : List Transaction)
    (neuralStateRoot : String) (selfId : String) : ConsensusBlock :=
  { height := st.blockHeight + 1
    timestamp := nowTs
    previousHash := (st.currentBlock.map (fun b => b.previousHash)).getD ""
    transactions := transactions
    neuralStateRoot := neuralStateRoot
    proposer := selfId
    signatures := [] }

/-- Concrete participant with id `a`; priority `1/2` in a two-node registry with `nodeB`. -/
def nodeA : ConsensusNode :=
  { id := "a", weight := 1, stake := 1, reputation := 1 / 2, lastProposal := 0,
    neuralSignature := "sigA" }

/-- Concrete participant with id `b`; same stake and reputation as `nodeA`,
hence exactly the same priority. -/
def nodeB : ConsensusNode :=
  { id := "b", weight := 1 / 2, stake := 1, reputation := 1 / 2, lastProposal := 0,
    neuralSignature := "sigB" }

/-- Concrete freshly-registered participant with zero stake. -/
def freshNode : ConsensusNode :=
  { id := "fresh", weight := 1, stake := 0, reputation := 4 / 5, lastProposal := 0,
    neuralSignature := "sigF" }

/-- Concrete participant used to instantiate the clamping theorems. -/
def witnessNode : ConsensusNode :=
  { id := "w", weight := 1 / 2, stake := 10, reputation := 3 / 4, lastProposal := 0,
    neuralSignature := "sigW" }

/-- Evaluation oracle that fails on participant `a` and returns score `1` otherwise. -/
def evalC9 (node : ConsensusNode) : Except String ℚ :=
  if node.id = "a" then .error "EvaluationUnavailable" else .ok 1

/-- Concrete last-accepted block at height `5`, whose own `previousHash` field
holds the identity of block `4`. -/
def blockFive : ConsensusBlock :=
  { height := 5, timestamp := 900, previousHash := "hash-of-block-4",
    transactions := [], neuralStateRoot := "root5", proposer := "a", signatures := [] }

/-- Concrete engine state whose last accepted block is `blockFive`. -/
def stateFive : EngineState :=
  { blockHeight := 5, currentBlock := some blockFive }

/-! ## Helper lemmas -/

/-- Clamping to `[0,1]` moves a point of `[0,1]` by at most the size of the
unclamped adjustment. -/
theorem clamp_move_le {w c : ℚ} (hw0 : 0 ≤ w) (hw1 : w ≤ 1) :
    |max 0 (min 1 (w + c)) - w| ≤ |c| := by
  rcases le_total (w + c) 0 with h0 | h0
  · rw [min_eq_right (by linarith : w + c ≤ 1), max_eq_left h0, zero_sub, abs_neg,
      abs_of_nonneg hw0]
    have hc := neg_abs_le c
    linarith
  · rcases le_total 1 (w + c) with h1 | h1
    · rw [min_eq_left h1, max_eq_right (by norm_num : (0 : ℚ) ≤ 1),
        abs_of_nonneg (by linarith : (0 : ℚ) ≤ 1 - w)]
      have hc := le_abs_self c
      linarith
    · rw [min_eq_right h1, max_eq_right h0, add_sub_cancel_left]

/-- The unclamped per-epoch adjustment `(score - 0.5) * 0.1` has size at most
`1/20` when the score lies in `[0,1]`. -/
theorem adj_abs_le {s : ℚ} (h0 : 0 ≤ s) (h1 : s ≤ 1) :
    |(s - 1 / 2) * (1 / 10)| ≤ 1 / 20 := by
  rw [abs_mul, abs_of_nonneg (by norm_num : (0 : ℚ) ≤ 1 / 10)]
  have h2 : |s - 1 / 2| ≤ 1 / 2 := abs_le.mpr ⟨by linarith, by linarith⟩
  nlinarith [abs_nonneg (s - 1 / 2)]

/-- The clamp `max 0 (min 1 x)` always lands in `[0,1]`. -/
theorem clamp_mem_unit (x : ℚ) : 0 ≤ max 0 (min 1 x) ∧ max 0 (min 1 x) ≤ 1 :=
  ⟨le_max_left 0 _, max_le (by norm_num) (min_le_left 1 x)⟩

/-! ## Claims C5, C6, C10 -/

/-- C5: for a participant whose weight and reputation lie in `[0,1]`, a
performance score in `[0,1]` and an alignment score in `[0,1]`, the epoch
update changes weight and reputation by at most `0.1` in absolute value. -/
theorem C5_bounded_drift (node : ConsensusNode) (performance alignment : ℚ)
    (hw0 : 0 ≤ node.weight) (hw1 : node.weight ≤ 1)
    (hr0 : 0 ≤ node.reputation) (hr1 : node.reputation ≤ 1)
    (hp0 : 0 ≤ performance) (hp1 : performance ≤ 1)
    (ha0 : 0 ≤ alignment) (ha1 : alignment ≤ 1) :
    |calculateNewWeight node performance - node.weight| ≤ 1 / 10 ∧
      |updateReputation node alignment - node.reputation| ≤ 1 / 10 := by
  constructor
  · exact le_trans (clamp_move_le hw0 hw1) (le_trans (adj_abs_le hp0 hp1) (by norm_num))
  · exact le_trans (clamp_move_le hr0 hr1) (le_trans (adj_abs_le ha0 ha1) (by norm_num))

/-- Witness for C5 at a concrete participant and concrete in-range scores. -/
theorem C5_bounded_drift_witness :
    |calculateNewWeight witnessNode (3 / 4) - witnessNode.weight| ≤ 1 / 10 ∧
      |updateReputation witnessNode (1 / 4) - witnessNode.reputation| ≤ 1 / 10 :=
  C5_bounded_drift witnessNode (3 / 4) (1 / 4) (by norm_num [witnessNode])
    (by norm_num [witnessNode]) (by norm_num [witnessNode]) (by norm_num [witnessNode])
    (by norm_num) (by norm_num) (by norm_num) (by norm_num)

/-- C6: if a participant starts with weight and reputation in `[0,1]`, then
after an epoch update with arbitrary (even out-of-range) performance and
alignment inputs, weight and reputation are still in `[0,1]`. -/
theorem C6_range_invariant (node : ConsensusNode) (performance alignment : ℚ)
    (hw0 : 0 ≤ node.weight) (hw1 : node.weight ≤ 1)
    (hr0 : 0 ≤ node.reputation) (hr1 : node.reputation ≤ 1) :
    (0 ≤ calculateNewWeight node performance ∧ calculateNewWeight node performance ≤ 1) ∧
      (0 ≤ updateReputation node alignment ∧ updateReputation node alignment ≤ 1) :=
  ⟨clamp_mem_unit _, clamp_mem_unit _⟩

/-- Witness for C6 at a concrete participant and wildly out-of-range scores. -/
theorem C6_range_invariant_witness :
    (0 ≤ calculateNewWeight witnessNode 1000 ∧ calculateNewWeight witnessNode 1000 ≤ 1) ∧
      (0 ≤ updateReputation witnessNode (-1000) ∧ updateReputation witnessNode (-1000) ≤ 1) :=
  C6_range_invariant witnessNode 1000 (-1000) (by norm_num [witnessNode])
    (by norm_num [witnessNode]) (by norm_num [witnessNode]) (by norm_num [witnessNode])

/-- C10: for a participant whose weight and reputation lie in `[0,1]` and
scores in `[0,1]`, the single-epoch change to weight and reputation is in fact
at most `0.05 = 1/20` in absolute value, strictly tighter than the stated
`0.1` bound, because the adjustment is `(score - 0.5) * 0.1` before clamping. -/
theorem C10_tight_drift (node : ConsensusNode) (performance alignment : ℚ)
    (hw0 : 0 ≤ node.weight) (hw1 : node.weight ≤ 1)
    (hr0 : 0 ≤ node.reputation) (hr1 : node.reputation ≤ 1)
    (hp0 : 0 ≤ performance) (hp1 : performance ≤ 1)
    (ha0 : 0 ≤ alignment) (ha1 : alignment ≤ 1) :
    |calculateNewWeight node performance - node.weight| ≤ 1 / 20 ∧
      |updateReputation node alignment - node.reputation| ≤ 1 / 20 := by
  constructor
  · exact le_trans (clamp_move_le hw0 hw1) (adj_abs_le hp0 hp1)
  · exact le_trans (clamp_move_le hr0 hr1) (adj_abs_le ha0 ha1)

/-! ## Selection-order lemmas -/

/-- With non-zero total stake, `calculatePriority` is the exact rational value. -/
theorem calculatePriority_of_ne {total : ℕ} (h : total ≠ 0) (node : ConsensusNode) :
    calculatePriority total node = some (priorityVal total node) := by
  have h0 : ((total : ℚ)) ≠ 0 := Nat.cast_ne_zero.mpr h
  simp [calculatePriority, jsDiv, priorityVal, h0]

/-- With zero total stake, every priority is `NaN`. -/
theorem calculatePriority_zero (node : ConsensusNode) :
    calculatePriority 0 node = none := by
  simp [calculatePriority, jsDiv]

/-- Comparator value with non-zero total stake. -/
theorem compareNodes_of_ne {total : ℕ} (h : total ≠ 0) (a b : ConsensusNode) :
    compareNodes total a b = some (priorityVal total b - priorityVal total a) := by
  simp [compareNodes, calculatePriority_of_ne h]

/-- Comparator value with zero total stake: `NaN`. -/
theorem compareNodes_zero (a b : ConsensusNode) : compareNodes 0 a b = none := by
  simp [compareNodes, calculatePriority_zero]

/-- With non-zero total stake the sort order is descending priority. -/
theorem nodeLe_of_ne {total : ℕ} (h : total ≠ 0) (a b : ConsensusNode) :
    nodeLe total a b ↔ priorityVal total b ≤ priorityVal total a := by
  simp [nodeLe, compareNodes_of_ne h, sub_nonpos]

/-- With zero total stake every comparator value is `NaN`, treated as `+0`,
so any two elements compare as equal. -/
theorem nodeLe_zero (a b : ConsensusNode) : nodeLe 0 a b := by
  simp [nodeLe, compareNodes_zero]

/-- The realised sort order is total. -/
theorem nodeLe_total_rel (total : ℕ) (a b : ConsensusNode) :
    nodeLe total a b ∨ nodeLe total b a := by
  rcases eq_or_ne total 0 with rfl | h
  · exact Or.inl (nodeLe_zero a b)
  · rw [nodeLe_of_ne h, nodeLe_of_ne h]
    exact le_total _ _

/-- The realised sort order is transitive. -/
theorem nodeLe_trans_rel (total : ℕ) {a b c : ConsensusNode}
    (hab : nodeLe total a b) (hbc : nodeLe total b c) : nodeLe total a c := by
  rcases eq_or_ne total 0 with rfl | h
  · exact nodeLe_zero a c
  · rw [nodeLe_of_ne h] at hab hbc ⊢
    exact le_trans hbc hab

/-- Two participants of equal priority compare as equal, in both directions. -/
theorem nodeLe_of_priority_eq {total : ℕ} {a b : ConsensusNode}
    (h : calculatePriority total a = calculatePriority total b) : nodeLe total a b := by
  rcases eq_or_ne total 0 with rfl | ht
  · exact nodeLe_zero a b
  · rw [calculatePriority_of_ne ht, calculatePriority_of_ne ht] at h
    rw [nodeLe_of_ne ht]
    exact le_of_eq (Option.some.inj h).symm

/-! ## Epoch-loop lemmas -/

/-- Characterisation of the weight-update loop when evaluation succeeds on a
prefix and throws on the next participant: the prefix keeps its updates, the
failing participant and everything after it are untouched, and the loop aborts. -/
theorem updateNodeWeights_ok_append (evalPerf : ConsensusNode → Except String ℚ)
    (f : ConsensusNode → ℚ) :
    ∀ (pre : List ConsensusNode) (node : ConsensusNode) (post : List ConsensusNode)
      (e : String),
      (∀ x ∈ pre, evalPerf x = .ok (f x)) → evalPerf node = .error e →
      updateNodeWeights evalPerf (pre ++ node :: post) =
        (pre.map (fun x => { x with weight := calculateNewWeight x (f x) }) ++ node :: post,
          true)
  | [], node, post, e, _, hnode => by
      simp [updateNodeWeights, hnode]
  | x :: xs, node, post, e, hpre, hnode => by
      have hx : evalPerf x = .ok (f x) := hpre x (List.mem_cons_self x xs)
      have ih := updateNodeWeights_ok_append evalPerf f xs node post e
        (fun y hy => hpre y (List.mem_cons_of_mem x hy)) hnode
      simp [updateNodeWeights, hx, ih]

/-- Same characterisation for the reputation-update loop. -/
theorem recalculateReputations_ok_append (evalAlign : ConsensusNode → Except String ℚ)
    (g : ConsensusNode → ℚ) :
    ∀ (pre : List ConsensusNode) (node : ConsensusNode) (post : List ConsensusNode)
      (e : String),
      (∀ x ∈ pre, evalAlign x = .ok (g x)) → evalAlign node = .error e →
      recalculateReputations evalAlign (pre ++ node :: post) =
        (pre.map (fun x => { x with reputation := updateReputation x (g x) }) ++ node :: post,
          true)
  | [], node, post, e, _, hnode => by
      simp [recalculateReputations, hnode]
  | x :: xs, node, post, e, hpre, hnode => by
      have hx : evalAlign x = .ok (g x) := hpre x (List.mem_cons_self x xs)
      have ih := recalculateReputations_ok_append evalAlign g xs node post e
        (fun y hy => hpre y (List.mem_cons_of_mem x hy)) hnode
      simp [recalculateReputations, hx, ih]

/-! ## Claims C1 and C9 -/

/-- C1 counterexample: `nodeA` and `nodeB` have exactly equal priority and
`nodeA.id < nodeB.id`, so the claimed id tie-break would put `nodeA` first
regardless of insertion order; the code instead returns the proposer in map
insertion order: snapshot `[nodeB, nodeA]` selects `nodeB` at slot `0` while
the spec order selects `nodeA`, and the two insertion orders of the same
participant set select different proposers. -/
theorem C1_counterexample :
    selectProposer [nodeB, nodeA] 0 = some nodeB ∧
      specSelectProposer [nodeB, nodeA] 0 = some nodeA ∧
      selectProposer [nodeA, nodeB] 0 = some nodeA ∧
      calculatePriority (getTotalStake [nodeB, nodeA]) nodeA =
        calculatePriority (getTotalStake [nodeB, nodeA]) nodeB ∧
      nodeA.id < nodeB.id ∧ nodeA ≠ nodeB := by
  have etot : getTotalStake [nodeB, nodeA] = 2 := rfl
  have etot2 : getTotalStake [nodeA, nodeB] = 2 := rfl
  have hprio : ∀ x ∈ [nodeA, nodeB], priorityVal 2 x = 1 / 2 := by
    intro x hx
    rcases List.mem_cons.mp hx with rfl | hx
    · norm_num [priorityVal, nodeA, stakeWeight, reputationWeight]
    · rw [List.mem_singleton.mp hx]
      norm_num [priorityVal, nodeB, stakeWeight, reputationWeight]
  have hBA : nodeLe (getTotalStake [nodeB, nodeA]) nodeB nodeA := by
    rw [etot, nodeLe_of_ne (by norm_num)]
    rw [hprio nodeA (by simp), hprio nodeB (by simp)]
  have hAB : nodeLe (getTotalStake [nodeA, nodeB]) nodeA nodeB := by
    rw [etot2, nodeLe_of_ne (by norm_num)]
    rw [hprio nodeA (by simp), hprio nodeB (by simp)]
  have hspec : ¬ specLe (getTotalStake [nodeB, nodeA]) nodeB nodeA := by
    rw [etot]
    rintro (h | ⟨heq, hid | hid⟩)
    · rw [specPriority, specPriority, if_neg (by norm_num), if_neg (by norm_num),
        hprio nodeA (by simp), hprio nodeB (by simp)] at h
      exact absurd h (lt_irrefl _)
    · have hlt : ("b" : String) < "a" := hid
      rw [String.lt_iff_toList_lt] at hlt
      exact absurd hlt (by decide)
    · have heqid : ("b" : String) = "a" := hid
      exact absurd heqid (by decide)
  refine ⟨?_, ?_, ?_, ?_, ?_, ?_⟩
  · simp only [selectProposer, sortedNodes, List.insertionSort, List.orderedInsert]
    rw [if_neg (by decide : ¬ ([nodeB, nodeA].length = 0)), if_pos hBA]
    rfl
  · simp only [specSelectProposer, List.insertionSort, List.orderedInsert]
    rw [if_neg (by decide : ¬ ([nodeB, nodeA].length = 0)), if_neg hspec]
    rfl
  · simp only [selectProposer, sortedNodes, List.insertionSort, List.orderedInsert]
    rw [if_neg (by decide : ¬ ([nodeA, nodeB].length = 0)), if_pos hAB]
    rfl
  · rw [etot, calculatePriority_of_ne (by norm_num), calculatePriority_of_ne (by norm_num),
      hprio nodeA (by simp), hprio nodeB (by simp)]
  · show ("a" : String) < "b"
    rw [String.lt_iff_toList_lt]
    decide
  · intro h
    have hid : nodeA.id = nodeB.id := congrArg ConsensusNode.id h
    have hid2 : ("a" : String) = "b" := hid
    exact absurd hid2 (by decide)

/-- C1 as amended: for every non-empty registry snapshot and slot `s`, the
selected proposer is the entry at index `s mod N` of `sortedNodes`, which is a
permutation of the registry (in map insertion order) sorted descending by
priority under the realised comparator order `nodeLe`, with equal-priority
participants kept in insertion order (sort stability); selection is total
(some participant is always returned).  Ties are broken by insertion order,
not by id, so selection is reproducible only for an unchanged snapshot. -/
theorem C1_selection (nodes : List ConsensusNode) (slot : ℕ) (hne : nodes ≠ []) :
    selectProposer nodes slot = (sortedNodes nodes).get? (slot % nodes.length) ∧
      (selectProposer nodes slot).isSome = true ∧
      List.Perm (sortedNodes nodes) nodes ∧
      List.Sorted (nodeLe (getTotalStake nodes)) (sortedNodes nodes) ∧
      (∀ a b : ConsensusNode, List.Sublist [a, b] nodes →
        calculatePriority (getTotalStake nodes) a = calculatePriority (getTotalStake nodes) b →
        List.Sublist [a, b] (sortedNodes nodes)) := by
  have hlen : nodes.length ≠ 0 := fun h => hne (List.length_eq_zero.mp h)
  refine ⟨?_, ?_, ?_, ?_, ?_⟩
  · simp only [selectProposer]
    rw [if_neg hlen]
  · simp only [selectProposer]
    rw [if_neg hlen]
    have hlt : slot % nodes.length < (sortedNodes nodes).length := by
      rw [sortedNodes, List.length_insertionSort]
      exact Nat.mod_lt _ (Nat.pos_of_ne_zero hlen)
    rw [List.get?_eq_get hlt]
    rfl
  · exact List.perm_insertionSort _ _
  · haveI : IsTotal ConsensusNode (nodeLe (getTotalStake nodes)) :=
      ⟨nodeLe_total_rel _⟩
    haveI : IsTrans ConsensusNode (nodeLe (getTotalStake nodes)) :=
      ⟨fun _ _ _ hab hbc => nodeLe_trans_rel _ hab hbc⟩
    exact List.sorted_insertionSort _ _
  · intro a b hsub heq
    exact List.pair_sublist_insertionSort (nodeLe_of_priority_eq heq) hsub

/-- Witness for C1 as amended, at the one-participant registry `[nodeA]` and slot `0`. -/
theorem C1_selection_witness :
    selectProposer [nodeA] 0 = (sortedNodes [nodeA]).get? (0 % [nodeA].length) ∧
      (selectProposer [nodeA] 0).isSome = true ∧
      List.Perm (sortedNodes [nodeA]) [nodeA] ∧
      List.Sorted (nodeLe (getTotalStake [nodeA])) (sortedNodes [nodeA]) ∧
      (∀ a b : ConsensusNode, List.Sublist [a, b] [nodeA] →
        calculatePriority (getTotalStake [nodeA]) a =
          calculatePriority (getTotalStake [nodeA]) b →
        List.Sublist [a, b] (sortedNodes [nodeA])) :=
  C1_selection [nodeA] 0 (List.cons_ne_nil _ _)

/-- C9 counterexample: with the evaluation oracle failing on `nodeA` (the first
participant in iteration order) and succeeding with score `1` on `nodeB`, the
weight pass leaves BOTH participants unchanged and aborts — the update of
`nodeB`, which would have changed its weight, is not applied, contradicting the
claim that the updates of every other participant are still applied. -/
theorem C9_counterexample :
    updateNodeWeights evalC9 [nodeA, nodeB] = ([nodeA, nodeB], true) ∧
      calculateNewWeight nodeB 1 ≠ nodeB.weight := by
  constructor
  · simp [updateNodeWeights, evalC9, nodeA]
  · norm_num [calculateNewWeight, nodeB, min_def, max_def]

/-- C9 as amended: when evaluating one participant fails, the participants
before it in iteration order keep their already-applied updates, while the
failing participant and every participant after it are left unchanged for the
pass, which aborts (the error is caught by the epoch-level handler); the same
holds for the reputation pass. -/
theorem C9_amended (evalPerf evalAlign : ConsensusNode → Except String ℚ)
    (f g : ConsensusNode → ℚ) (pre post preR postR : List ConsensusNode)
    (node nodeR : ConsensusNode) (e eR : String)
    (hpre : ∀ x ∈ pre, evalPerf x = .ok (f x)) (hnode : evalPerf node = .error e)
    (hpreR : ∀ x ∈ preR, evalAlign x = .ok (g x)) (hnodeR : evalAlign nodeR = .error eR) :
    updateNodeWeights evalPerf (pre ++ node :: post) =
      (pre.map (fun x => { x with weight := calculateNewWeight x (f x) }) ++ node :: post,
        true) ∧
      recalculateReputations evalAlign (preR ++ nodeR :: postR) =
        (preR.map (fun x => { x with reputation := updateReputation x (g x) }) ++
          nodeR :: postR, true) :=
  ⟨updateNodeWeights_ok_append evalPerf f pre node post e hpre hnode,
    recalculateReputations_ok_append evalAlign g preR nodeR postR eR hpreR hnodeR⟩

/-- Witness for C9 as amended: weight pass over `[nodeB, nodeA]` (failure on
the second participant, so the first keeps its update) and reputation pass
over `[nodeA, nodeB]` (failure on the first participant). -/
theorem C9_amended_witness :
    updateNodeWeights evalC9 [nodeB, nodeA] =
      ([{ nodeB with weight := calculateNewWeight nodeB 1 }, nodeA], true) ∧
      recalculateReputations evalC9 [nodeA, nodeB] = ([nodeA, nodeB], true) :=
  C9_amended evalC9 evalC9 (fun _ => 1) (fun _ => 1) [nodeB] [] [] [nodeB] nodeA nodeA
    "EvaluationUnavailable" "EvaluationUnavailable"
    (fun x hx => by
      rw [List.mem_singleton.mp hx]
      rfl)
    rfl
    (fun x hx => absurd hx (List.not_mem_nil x))
    rfl

/-! ## Claims C2, C3, C4, C7, C8 -/

/-- C2 (code bug): on a registry whose total stake is `0` (a single freshly
registered participant with zero stake), `calculatePriority` divides `0` by `0`
and yields `NaN` (modelled `none`), not `0.4 * reputation` as the spec states. -/
theorem C2_code_bug :
    getTotalStake [freshNode] = 0 ∧
      calculatePriority (getTotalStake [freshNode]) freshNode = none ∧
      calculatePriority (getTotalStake [freshNode]) freshNode ≠
        some (reputationWeight * freshNode.reputation) := by
  refine ⟨rfl, ?_, ?_⟩ <;>
    simp [calculatePriority, jsDiv, getTotalStake, freshNode]

/-- C3 (code bug): with last accepted block `blockFive` (height `5`, whose own
`previousHash` field holds the identity of block `4`), `proposeBlock` builds a
block of height `6` whose `previousHash` is `blockFive.previousHash` — the
identity of block `4`, the grandparent — rather than an identity of `blockFive`
itself; the signatures map is empty as claimed. -/
theorem C3_code_bug :
    (proposeBlock stateFive 1000 [] "root6" "a").height = 6 ∧
      (proposeBlock stateFive 1000 [] "root6" "a").previousHash = "hash-of-block-4" ∧
      (proposeBlock stateFive 1000 [] "root6" "a").previousHash = blockFive.previousHash ∧
      (proposeBlock stateFive 1000 [] "root6" "a").signatures = [] :=
  ⟨rfl, rfl, rfl, rfl⟩

/-- C4 counterexample: on an empty registry, selection silently yields no
proposer (`none`, i.e. `sortedNodes[NaN]` is `undefined`) and `isProposer`
evaluates to `false`; no `NoEligibleProposers` failure occurs (no such error
exists anywhere in the code). -/
theorem C4_counterexample :
    selectProposer [] 0 = none ∧ isProposer [] 0 "node-1" = false :=
  ⟨rfl, rfl⟩

/-- C4 as amended: for every slot and every local node id, selection over the
empty registry returns no proposer and `isProposer` returns `false`, without
raising any error. -/
theorem C4_amended (slot now : ℕ) (selfId : String) :
    selectProposer [] slot = none ∧ isProposer [] now selfId = false :=
  ⟨rfl, rfl⟩

/-- C7: after the pruning step at time `now` (with `maxInactivity` equal to
`3600000` ms), a participant record is in the registry iff it was there before
and satisfies `now - lastProposal ≤ maxInactivity`; pruning only deletes
entries (the survivors are an order-preserving sublist, each record unchanged). -/
theorem C7_pruning (now : ℤ) (nodes : List ConsensusNode) (node : ConsensusNode) :
    maxInactivity = 3600000 ∧
      (node ∈ pruneInactiveNodes now nodes ↔
        node ∈ nodes ∧ now - node.lastProposal ≤ maxInactivity) ∧
      List.Sublist (pruneInactiveNodes now nodes) nodes := by
  refine ⟨rfl, ?_, List.filter_sublist _⟩
  simp [pruneInactiveNodes]

/-- C8 (code bug): on a registry whose total stake is `0`,
`calculateConsensusHealth` divides `0` by `0` and returns `NaN` (modelled
`none`), not `0` as the spec states. -/
theorem C8_code_bug :
    getTotalStake [freshNode] = 0 ∧
      calculateConsensusHealth [freshNode] = none ∧
      calculateConsensusHealth [freshNode] ≠ some 0 := by
  refine ⟨rfl, ?_, ?_⟩ <;>
    simp [calculateConsensusHealth, jsDiv, getTotalStake, activeStake, freshNode]

/-- Witness for C10 at a concrete participant and concrete in-range scores. -/
theorem C10_tight_drift_witness :
    |calculateNewWeight witnessNode 1 - witnessNode.weight| ≤ 1 / 20 ∧
      |updateReputation witnessNode 0 - witnessNode.reputation| ≤ 1 / 20 :=
  C10_tight_drift witnessNode 1 0 (by norm_num [witnessNode])
    (by norm_num [witnessNode]) (by norm_num [witnessNode]) (by norm_num [witnessNode])
    (by norm_num) (by norm_num) (by norm_num) (by norm_num)

end Synapse
